import Mathlib

/-!
Verification of the VibeTunnel terminal buffer streaming and history-replay
core against its design specification.

The Lean definitions below are shallow embeddings of the TypeScript sources:

* `web/src/server/workers/tasks/history-chunk.ts` (`buildHistoryChunk`)
* `web/src/server/workers/tasks/encode-snapshot.ts` (`encodeSnapshot`,
  `calculateCellSize`, `calculateRowSize`, `encodeRow`, `hashRow`)
* `web/src/server/workers/pool.ts` (`WorkerPool`)
* the `StreamWatcher` (tail replay, clear-boundary scan, client reference
  counting) and `BufferAggregator` (subscription handling) services
* the server-sent-events router (per-client-key connection cap)

JavaScript `Map`/`Set` state becomes functional maps and lists, byte buffers
become `List Nat`, and fallible or absent values become `Option`.
-/

namespace VibeTunnel

/-- Asciinema event: tri-tagged `[timestamp, kind, data]` for output, input
and resize events, or the terminal `["exit", code, sessionId]` marker. -/
inductive AsciinemaEvent where
  | output (time : Int) (data : String)
  | input (time : Int) (data : String)
  | resize (time : Int) (data : String)
  | exit (code : Int) (sessionId : String)
deriving DecidableEq, Repr

/-- Type guard `isOutputEvent` from both `history-chunk.ts` and the
stream watcher. -/
def isOutputEvent : AsciinemaEvent → Bool
  | .output _ _ => true
  | _ => false

/-- Type guard `isResizeEvent`. -/
def isResizeEvent : AsciinemaEvent → Bool
  | .resize _ _ => true
  | _ => false

/-- Type guard `isExitEvent`. -/
def isExitEvent : AsciinemaEvent → Bool
  | .exit _ _ => true
  | _ => false

/-- Guard for input events (events dropped by the history chunk builder). -/
def isInputEvent : AsciinemaEvent → Bool
  | .input _ _ => true
  | _ => false

/-- Timestamp field of a timed event (`0` for the exit marker, whose first
slot is the tag). -/
def eventTime : AsciinemaEvent → Int
  | .output t _ => t
  | .input t _ => t
  | .resize t _ => t
  | .exit _ _ => 0

/-- Specification-side description of the per-event classification performed
by the chunk loop: output and resize events survive with their timestamp
zeroed, everything else is removed. -/
def normalizeEvent : AsciinemaEvent → Option AsciinemaEvent
  | .output _ d => some (.output 0 d)
  | .resize _ d => some (.resize 0 d)
  | _ => none

/-- Specification-side description of `exitEvent` accumulation: the last exit
event of the list, if any. -/
def lastExitSpec : List AsciinemaEvent → Option AsciinemaEvent
  | [] => none
  | e :: rest =>
    match lastExitSpec rest with
    | some x => some x
    | none => if isExitEvent e then some e else none

/-- Check that a chunk event is an output or resize event whose timestamp has
been replaced by `0`. -/
def isZeroedOutputOrResize (e : AsciinemaEvent) : Bool :=
  (isOutputEvent e || isResizeEvent e) && eventTime e == 0

/-- The event-classification loop of `buildHistoryChunk` (history-chunk.ts,
lines 46-62), accumulating the chunk events, the output-event count and the
most recent exit event, exactly as the `for` loop does. -/
def chunkLoop (chunkEvents : List AsciinemaEvent) (chunkOutputEvents : Nat)
    (exitEvent : Option AsciinemaEvent) :
    List AsciinemaEvent → List AsciinemaEvent × Nat × Option AsciinemaEvent
  | [] => (chunkEvents, chunkOutputEvents, exitEvent)
  | e :: rest =>
    match e with
    | .exit c sid => chunkLoop chunkEvents chunkOutputEvents (some (.exit c sid)) rest
    | .output _ d =>
        chunkLoop (chunkEvents ++ [.output 0 d]) (chunkOutputEvents + 1) exitEvent rest
    | .resize _ d =>
        chunkLoop (chunkEvents ++ [.resize 0 d]) chunkOutputEvents exitEvent rest
    | .input _ _ => chunkLoop chunkEvents chunkOutputEvents exitEvent rest

/-- Input of the history-chunk worker task (`HistoryChunkTaskPayload`). -/
structure HistoryChunkTaskPayload where
  sessionId : String
  events : List AsciinemaEvent
  eventOffsets : List Nat
  baseStartIndex : Nat
  sendStartIndex : Nat
  startOffset : Nat
  fileOffset : Nat
  initialTailLines : Nat
  hasMoreHistory : Bool
  totalEvents : Nat
  totalOutputEvents : Nat

/-- The JSON history chunk sent to clients (`HistoryChunkPayload`). -/
structure HistoryChunkPayload where
  sessionId : String
  mode : String
  hasMore : Bool
  totalEvents : Nat
  totalOutputEvents : Nat
  chunkEventCount : Nat
  chunkOutputEvents : Nat
  chunkStartOffset : Nat
  previousOffset : Option Nat
  nextOffset : Nat
  initialTailLines : Nat
  events : List AsciinemaEvent

/-- Result of the history-chunk worker task (`HistoryChunkTaskResult`). -/
structure HistoryChunkTaskResult where
  payload : Option HistoryChunkPayload
  chunkOutputEvents : Nat
  exitEvent : Option AsciinemaEvent

/-- Embedding of `buildHistoryChunk` (history-chunk.ts, lines 25-90).
`Math.max(totalEvents - baseStartIndex, 0)` is truncated subtraction on `Nat`;
`eventOffsets[i] ?? x` is `(eventOffsets.get? i).getD x`. -/
def buildHistoryChunk (p : HistoryChunkTaskPayload) : HistoryChunkTaskResult :=
  let acc := chunkLoop [] 0 none (p.events.drop p.sendStartIndex)
  let chunkEvents := acc.1
  let chunkOutputEvents := acc.2.1
  let exitEvent := acc.2.2
  let chunkPayload : Option HistoryChunkPayload :=
    if 0 < chunkEvents.length then
      some
        { sessionId := p.sessionId
          mode := "tail"
          hasMore := p.hasMoreHistory
          totalEvents := p.totalEvents - p.baseStartIndex
          totalOutputEvents := p.totalOutputEvents
          chunkEventCount := chunkEvents.length
          chunkOutputEvents := chunkOutputEvents
          chunkStartOffset := (p.eventOffsets.get? p.sendStartIndex).getD p.startOffset
          previousOffset :=
            if p.hasMoreHistory ∧ 0 < p.sendStartIndex then
              p.eventOffsets.get? (p.sendStartIndex - 1)
            else none
          nextOffset := p.fileOffset
          initialTailLines := p.initialTailLines
          events := chunkEvents }
    else none
  { payload := chunkPayload, chunkOutputEvents := chunkOutputEvents, exitEvent := exitEvent }

theorem chunkLoop_events (l : List AsciinemaEvent) :
    ∀ ce co ex, (chunkLoop ce co ex l).1 = ce ++ l.filterMap normalizeEvent := by
  induction l with
  | nil => intro ce co ex; simp [chunkLoop]
  | cons e rest ih =>
      intro ce co ex
      cases e <;> simp [chunkLoop, normalizeEvent, ih]

theorem chunkLoop_count (l : List AsciinemaEvent) :
    ∀ ce co ex, (chunkLoop ce co ex l).2.1 = co + l.countP isOutputEvent := by
  induction l with
  | nil => intro ce co ex; simp [chunkLoop]
  | cons e rest ih =>
      intro ce co ex
      cases e <;>
        simp [chunkLoop, isOutputEvent, ih, List.countP_cons] <;> omega

theorem chunkLoop_exit (l : List AsciinemaEvent) :
    ∀ ce co ex, (chunkLoop ce co ex l).2.2 =
      match lastExitSpec l with
      | some x => some x
      | none => ex := by
  induction l with
  | nil => intro ce co ex; simp [chunkLoop, lastExitSpec]
  | cons e rest ih =>
      intro ce co ex
      cases e <;>
        simp [chunkLoop, lastExitSpec, isExitEvent, ih] <;>
        cases lastExitSpec rest <;> simp

theorem mem_filterMap_normalize (l : List AsciinemaEvent) (e : AsciinemaEvent)
    (he : e ∈ l.filterMap normalizeEvent) :
    (∃ d, e = .output 0 d) ∨ (∃ d, e = .resize 0 d) := by
  rcases List.mem_filterMap.mp he with ⟨a, _, ha⟩
  cases a <;> simp [normalizeEvent] at ha <;> subst ha
  · exact Or.inl ⟨_, rfl⟩
  · exact Or.inr ⟨_, rfl⟩

theorem filterMap_normalize_all_zeroed (l : List AsciinemaEvent) :
    (l.filterMap normalizeEvent).all isZeroedOutputOrResize = true := by
  rw [List.all_eq_true]
  intro e he
  rcases mem_filterMap_normalize l e he with ⟨d, rfl⟩ | ⟨d, rfl⟩ <;>
    simp [isZeroedOutputOrResize, isOutputEvent, isResizeEvent, eventTime]

theorem filterMap_normalize_never_exit_or_input (l : List AsciinemaEvent) :
    (l.filterMap normalizeEvent).all (fun e => !isExitEvent e && !isInputEvent e) = true := by
  rw [List.all_eq_true]
  intro e he
  rcases mem_filterMap_normalize l e he with ⟨d, rfl⟩ | ⟨d, rfl⟩ <;>
    simp [isExitEvent, isInputEvent]

/-- C5: `buildHistoryChunk` iterates the events from `sendStartIndex`: exit
events are captured in `exitEvent` (the last one seen) and never placed in the
chunk's events; output and resize events are copied with their timestamp
zeroed; input events are dropped; `chunkOutputEvents` counts exactly the
copied output events; and the payload is `null` rather than an empty-events
payload when nothing qualifies. -/
theorem buildHistoryChunk_spec (p : HistoryChunkTaskPayload) :
    (buildHistoryChunk p).exitEvent = lastExitSpec (p.events.drop p.sendStartIndex)
    ∧ (buildHistoryChunk p).chunkOutputEvents =
        (p.events.drop p.sendStartIndex).countP isOutputEvent
    ∧ ((buildHistoryChunk p).payload.map fun pl => pl.events) =
        (if ((p.events.drop p.sendStartIndex).filterMap normalizeEvent).isEmpty then none
         else some ((p.events.drop p.sendStartIndex).filterMap normalizeEvent))
    ∧ ((buildHistoryChunk p).payload.map fun pl => pl.chunkOutputEvents) =
        (if ((p.events.drop p.sendStartIndex).filterMap normalizeEvent).isEmpty then none
         else some ((p.events.drop p.sendStartIndex).countP isOutputEvent))
    ∧ (((buildHistoryChunk p).payload.map fun pl => pl.events).getD []).all
        (fun e => !isExitEvent e && !isInputEvent e) = true
    ∧ (((buildHistoryChunk p).payload.map fun pl => pl.events).getD []).all
        isZeroedOutputOrResize = true := by
  have hev := chunkLoop_events (p.events.drop p.sendStartIndex) [] 0 none
  have hco := chunkLoop_count (p.events.drop p.sendStartIndex) [] 0 none
  have hex := chunkLoop_exit (p.events.drop p.sendStartIndex) [] 0 none
  have hzero := filterMap_normalize_all_zeroed (p.events.drop p.sendStartIndex)
  refine ⟨?_, ?_, ?_, ?_, ?_, ?_⟩
  · simp only [buildHistoryChunk, hex]
    cases lastExitSpec (p.events.drop p.sendStartIndex) <;> simp
  · simp [buildHistoryChunk, hco]
  · simp only [buildHistoryChunk, hev, hco]
    by_cases h : ((p.events.drop p.sendStartIndex).filterMap normalizeEvent).isEmpty
    · simp_all [List.isEmpty_iff]
    · have : (p.events.drop p.sendStartIndex).filterMap normalizeEvent ≠ [] := by
        simpa [List.isEmpty_iff] using h
      simp_all [List.length_pos]
  · simp only [buildHistoryChunk, hev, hco]
    by_cases h : ((p.events.drop p.sendStartIndex).filterMap normalizeEvent).isEmpty
    · simp_all [List.isEmpty_iff]
    · have : (p.events.drop p.sendStartIndex).filterMap normalizeEvent ≠ [] := by
        simpa [List.isEmpty_iff] using h
      simp_all [List.length_pos]
  · simp only [buildHistoryChunk, hev, hco]
    by_cases h : 0 < ((p.events.drop p.sendStartIndex).filterMap normalizeEvent).length
    · simpa [h] using filterMap_normalize_never_exit_or_input (p.events.drop p.sendStartIndex)
    · simp [h]
  · simp only [buildHistoryChunk, hev, hco]
    by_cases h : 0 < ((p.events.drop p.sendStartIndex).filterMap normalizeEvent).length
    · simpa [h] using filterMap_normalize_all_zeroed (p.events.drop p.sendStartIndex)
    · simp [h]

/-! The tail-replay selection of `StreamWatcher.sendExistingContent`
(stream watcher source, lines 1129-1205).  The branch is entered when
`initialTailLines > 0 && events.length > baseStartIndex`; it scans the event
array backward from the last index, counting output events, until
`initialTailLines` are counted or `baseStartIndex` is reached. -/

/-- Placeholder used to model JavaScript array indexing `events[idx]`; the
loop only reads indices below `events.length`, where `getD` agrees with the
source. -/
def defaultEvent : AsciinemaEvent := .output 0 ""

/-- One loop body's counter update: `if (isOutputEvent(event)) outputCounter++`. -/
def counterStep (events : List AsciinemaEvent) (idx counter : Nat) : Nat :=
  if isOutputEvent (events.getD idx defaultEvent) then counter + 1 else counter

/-- The backward `for (let idx = events.length - 1; idx >= baseStartIndex; idx--)`
loop.  `idx` is the current index and `counter` the output events counted so
far; the result is the final `sendStartIndex` before the `Math.max` clamp.
At index `0` the loop either breaks there or terminates, so both paths yield
`0`. -/
def tailLoop (events : List AsciinemaEvent) (baseStartIndex initialTailLines : Nat) :
    Nat → Nat → Nat
  | 0, _ => 0
  | idx + 1, counter =>
    if isOutputEvent (events.getD (idx + 1) defaultEvent)
        ∧ initialTailLines ≤ counterStep events (idx + 1) counter then
      idx + 1
    else if idx + 1 ≤ baseStartIndex then idx + 1
    else tailLoop events baseStartIndex initialTailLines idx (counterStep events (idx + 1) counter)

/-- `sendStartIndex = Math.max(sendStartIndex, baseStartIndex)` after the
backward scan started at `events.length - 1` with counter `0`. -/
def sendStartIndexOf (events : List AsciinemaEvent) (base n : Nat) : Nat :=
  max (tailLoop events base n (events.length - 1) 0) base

/-- `hasMoreHistory = sendStartIndex > baseStartIndex`. -/
def hasMoreHistoryOf (events : List AsciinemaEvent) (base n : Nat) : Bool :=
  decide (base < sendStartIndexOf events base n)

/-- The chunk events built by the inline loop over `[sendStartIndex, end)`
(same classification as `buildHistoryChunk`). -/
def tailChunkEvents (events : List AsciinemaEvent) (base n : Nat) : List AsciinemaEvent :=
  (chunkLoop [] 0 none (events.drop (sendStartIndexOf events base n))).1

/-- The `chunkOutputEvents` counter of the inline tail-chunk loop. -/
def tailChunkOutputEvents (events : List AsciinemaEvent) (base n : Nat) : Nat :=
  (chunkLoop [] 0 none (events.drop (sendStartIndexOf events base n))).2.1

/-- Number of output events at positions `≥ j` ("output events after the
boundary" when `j` is `baseStartIndex`). -/
def outputCountFrom (events : List AsciinemaEvent) (j : Nat) : Nat :=
  (events.drop j).countP isOutputEvent

theorem outputCountFrom_succ (events : List AsciinemaEvent) (j : Nat)
    (h : j < events.length) :
    outputCountFrom events j =
      (if isOutputEvent (events.getD j defaultEvent) then 1 else 0)
        + outputCountFrom events (j + 1) := by
  unfold outputCountFrom
  rw [List.drop_eq_getElem_cons h, List.countP_cons, List.getD_eq_getElem _ _ h]
  omega

theorem outputCountFrom_anti (events : List AsciinemaEvent) {i j : Nat} (h : i ≤ j) :
    outputCountFrom events j ≤ outputCountFrom events i := by
  unfold outputCountFrom
  have hd : events.drop j = (events.drop i).drop (j - i) := by
    rw [List.drop_drop]
    congr 1
    omega
  rw [hd]
  exact List.Sublist.countP_le _ (List.drop_sublist _ _)

theorem counterStep_count (events : List AsciinemaEvent) (idx : Nat)
    (h : idx < events.length) :
    counterStep events idx (outputCountFrom events (idx + 1)) = outputCountFrom events idx := by
  rw [counterStep, outputCountFrom_succ events idx h]
  cases ho : isOutputEvent (events.getD idx defaultEvent) <;> simp <;> omega

theorem outputCountFrom_of_break (events : List AsciinemaEvent) {idx n : Nat}
    (h : idx < events.length) (hcl : outputCountFrom events (idx + 1) < n)
    (hge : n ≤ outputCountFrom events idx) :
    outputCountFrom events idx = n
      ∧ isOutputEvent (events.getD idx defaultEvent) = true := by
  have hsucc := outputCountFrom_succ events idx h
  cases ho : isOutputEvent (events.getD idx defaultEvent)
  · rw [ho] at hsucc
    simp at hsucc
    omega
  · rw [ho] at hsucc
    simp at hsucc
    exact ⟨by omega, rfl⟩

theorem tailLoop_count_lt (events : List AsciinemaEvent) (base n : Nat)
    (hlt : outputCountFrom events base < n) :
    ∀ d, base + d < events.length →
      tailLoop events base n (base + d) (outputCountFrom events (base + d + 1)) = base := by
  intro d
  induction d with
  | zero =>
      intro hdlen
      simp only [Nat.add_zero] at hdlen ⊢
      match hb : base, hlt, hdlen with
      | 0, _, _ => simp [tailLoop]
      | b + 1, hlt, hdlen =>
          rw [tailLoop, counterStep_count events (b + 1) hdlen]
          have hnb : ¬(isOutputEvent (events.getD (b + 1) defaultEvent)
              ∧ n ≤ outputCountFrom events (b + 1)) := by
            rintro ⟨-, hle⟩
            omega
          rw [if_neg hnb, if_pos (Nat.le_refl _)]
  | succ d ih =>
      intro hdlen
      have hidx : base + (d + 1) = (base + d) + 1 := by omega
      rw [hidx] at hdlen ⊢
      rw [tailLoop, counterStep_count events (base + d + 1) hdlen]
      have hanti : outputCountFrom events (base + d + 1) ≤ outputCountFrom events base :=
        outputCountFrom_anti events (by omega)
      have hnb : ¬(isOutputEvent (events.getD (base + d + 1) defaultEvent)
          ∧ n ≤ outputCountFrom events (base + d + 1)) := by
        rintro ⟨-, hle⟩
        omega
      rw [if_neg hnb, if_neg (by omega : ¬ base + d + 1 ≤ base)]
      exact ih (by omega)

theorem tailLoop_count_ge (events : List AsciinemaEvent) (base n : Nat)
    (hge : n ≤ outputCountFrom events base) :
    ∀ d, base + d < events.length →
      outputCountFrom events (base + d + 1) < n →
      ∃ s, tailLoop events base n (base + d) (outputCountFrom events (base + d + 1)) = s
        ∧ base ≤ s ∧ s ≤ base + d ∧ outputCountFrom events s = n
        ∧ isOutputEvent (events.getD s defaultEvent) = true := by
  intro d
  induction d with
  | zero =>
      intro hdlen hcl
      simp only [Nat.add_zero] at hdlen hcl ⊢
      obtain ⟨heq, hout⟩ := outputCountFrom_of_break events hdlen hcl hge
      match hb : base, hge, hcl, hdlen, heq, hout with
      | 0, _, _, _, heq, hout =>
          exact ⟨0, by simp [tailLoop], Nat.le_refl _, Nat.le_refl _, heq, hout⟩
      | b + 1, _, _, hdlen, heq, hout =>
          refine ⟨b + 1, ?_, Nat.le_refl _, Nat.le_refl _, heq, hout⟩
          rw [tailLoop, counterStep_count events (b + 1) hdlen]
          rw [if_pos ⟨hout, by omega⟩]
  | succ d ih =>
      intro hdlen hcl
      have hidx : base + (d + 1) = (base + d) + 1 := by omega
      rw [hidx] at hdlen hcl ⊢
      by_cases hc : n ≤ outputCountFrom events (base + d + 1)
      · obtain ⟨heq, hout⟩ := outputCountFrom_of_break events hdlen hcl hc
        refine ⟨base + d + 1, ?_, by omega, Nat.le_refl _, heq, hout⟩
        rw [tailLoop, counterStep_count events (base + d + 1) hdlen]
        rw [if_pos ⟨hout, by omega⟩]
      · push_neg at hc
        rw [tailLoop, counterStep_count events (base + d + 1) hdlen]
        have hnb : ¬(isOutputEvent (events.getD (base + d + 1) defaultEvent)
            ∧ n ≤ outputCountFrom events (base + d + 1)) := by
          rintro ⟨-, hle⟩
          omega
        rw [if_neg hnb, if_neg (by omega : ¬ base + d + 1 ≤ base)]
        rcases ih (by omega) hc with ⟨s, hrun, hbs, hsd, hcnt, hos⟩
        exact ⟨s, hrun, hbs, by omega, hcnt, hos⟩

theorem outputCountFrom_length (events : List AsciinemaEvent) :
    outputCountFrom events events.length = 0 := by
  simp [outputCountFrom]

/-- C1 (amended): with `initialTailLines = N > 0` and at least one event after
the boundary, the tail scan yields `chunkOutputEvents` exactly `N` whenever at
least `N` output events follow the boundary, and `hasMoreHistory = true`
whenever strictly more than `N` do; with fewer than `N`, the chunk starts at
the boundary, includes everything that qualifies, and `hasMoreHistory`
is `false`.  (With exactly `N`, `hasMoreHistory` is
`sendStartIndex > baseStartIndex`, which can be `false`.) -/
theorem tailReplay_spec (events : List AsciinemaEvent) (base n : Nat)
    (hn : 0 < n) (hlen : base < events.length) :
    (n ≤ outputCountFrom events base →
        tailChunkOutputEvents events base n = n)
    ∧ (n < outputCountFrom events base →
        hasMoreHistoryOf events base n = true)
    ∧ (outputCountFrom events base < n →
        sendStartIndexOf events base n = base
        ∧ hasMoreHistoryOf events base n = false
        ∧ tailChunkEvents events base n = (events.drop base).filterMap normalizeEvent) := by
  have hd : base + (events.length - 1 - base) = events.length - 1 := by omega
  have hdlen : base + (events.length - 1 - base) < events.length := by omega
  have hzero : outputCountFrom events (events.length - 1 + 1) = 0 := by
    have h1 : events.length - 1 + 1 = events.length := by omega
    rw [h1, outputCountFrom_length]
  refine ⟨?_, ?_, ?_⟩
  · intro hge
    rcases tailLoop_count_ge events base n hge (events.length - 1 - base) hdlen
        (by rw [hd, hzero]; omega) with ⟨s, hrun, hbs, _, hcnt, _⟩
    rw [hd, hzero] at hrun
    have hsend : sendStartIndexOf events base n = s := by
      rw [sendStartIndexOf, hrun]
      omega
    rw [tailChunkOutputEvents, hsend, chunkLoop_count]
    simpa [outputCountFrom] using hcnt
  · intro hgt
    rcases tailLoop_count_ge events base n (by omega) (events.length - 1 - base) hdlen
        (by rw [hd, hzero]; omega) with ⟨s, hrun, hbs, _, hcnt, _⟩
    rw [hd, hzero] at hrun
    have hsend : sendStartIndexOf events base n = s := by
      rw [sendStartIndexOf, hrun]
      omega
    have hsb : base < s := by
      rcases Nat.lt_or_ge base s with h | h
      · exact h
      · have : s = base := by omega
        subst this
        omega
    simp [hasMoreHistoryOf, hsend, hsb]
  · intro hlt
    have hrun := tailLoop_count_lt events base n hlt (events.length - 1 - base) hdlen
    rw [hd, hzero] at hrun
    have hsend : sendStartIndexOf events base n = base := by
      rw [sendStartIndexOf, hrun]
      omega
    refine ⟨hsend, ?_, ?_⟩
    · simp [hasMoreHistoryOf, hsend]
    · rw [tailChunkEvents, hsend, chunkLoop_events]
      simp

/-- Witness for `tailReplay_spec`: two output events after the boundary with
`N = 1` give a chunk of exactly one output event and `hasMore = true`. -/
theorem tailReplay_spec_witness :
    tailChunkOutputEvents [AsciinemaEvent.output 1 "a", AsciinemaEvent.output 2 "b"] 0 1 = 1
    ∧ hasMoreHistoryOf [AsciinemaEvent.output 1 "a", AsciinemaEvent.output 2 "b"] 0 1 = true :=
  ⟨(tailReplay_spec [AsciinemaEvent.output 1 "a", AsciinemaEvent.output 2 "b"] 0 1
      (by decide) (by decide)).1 (by decide),
   (tailReplay_spec [AsciinemaEvent.output 1 "a", AsciinemaEvent.output 2 "b"] 0 1
      (by decide) (by decide)).2.1 (by decide)⟩

/-- C1 counterexample: a session whose log holds exactly `N = 1` output event
after the boundary (the event sitting at `baseStartIndex` itself).  The claim
asserts `hasMore = true` whenever at least `N` output events exist, but the
code computes `sendStartIndex = baseStartIndex` here, so `hasMore = false`. -/
theorem tailReplay_claim_counterexample :
    1 ≤ outputCountFrom [AsciinemaEvent.output 1 "hi"] 0
    ∧ tailChunkOutputEvents [AsciinemaEvent.output 1 "hi"] 0 1 = 1
    ∧ hasMoreHistoryOf [AsciinemaEvent.output 1 "hi"] 0 1 = false := by
  refine ⟨by decide, by decide, by decide⟩

/-! Client reference counting of `StreamWatcher` (`addClient`, lines 808-864,
and `removeClient`, lines 869-908).  The `activeWatchers : Map<string,
WatcherInfo>` becomes a functional map from session ids to the set of attached
clients (modelled as a list of client ids); creating and closing the
underlying `fs.FSWatcher` become explicit trace events. -/

/-- The `activeWatchers` map: `none` models an absent entry. -/
def WatcherMap := String → Option (List Nat)

/-- Map update (`Map.set`). -/
def wSet (m : WatcherMap) (sid : String) (v : List Nat) : WatcherMap :=
  fun s => if s = sid then some v else m s

/-- Map removal (`Map.delete`). -/
def wDel (m : WatcherMap) (sid : String) : WatcherMap :=
  fun s => if s = sid then none else m s

/-- Observable watcher lifecycle events. -/
inductive WatcherEvent where
  | created (sessionId : String)
  | closed (sessionId : String)
deriving DecidableEq, Repr

/-- `StreamWatcher.addClient`: absent entry means a fresh `WatcherInfo` is
registered, existing content is sent, the file watcher is started (one
`created` event) and the client added; otherwise the client is just added to
the existing set (`Set.add`: no duplicate entries). -/
def addClient (m : WatcherMap) (sid : String) (c : Nat) : WatcherMap × List WatcherEvent :=
  match m sid with
  | none =>
      let m1 := wSet m sid []
      let m2 := wSet m1 sid [c]
      (m2, [.created sid])
  | some clients =>
      (wSet m sid (if c ∈ clients then clients else clients ++ [c]), [])

/-- `StreamWatcher.removeClient`: no entry or unknown client is a no-op;
removing the last client closes the watcher (one `closed` event) and deletes
the session's entry. -/
def removeClient (m : WatcherMap) (sid : String) (c : Nat) : WatcherMap × List WatcherEvent :=
  match m sid with
  | none => (m, [])
  | some clients =>
      if c ∈ clients then
        let remaining := clients.erase c
        if remaining.isEmpty then (wDel m sid, [.closed sid])
        else (wSet m sid remaining, [])
      else (m, [])

/-- The core invariant: a watcher entry exists iff its client set is
non-empty (every present entry is non-empty; absent sessions have no
clients by definition). -/
def watcherInvariant (m : WatcherMap) : Prop :=
  ∀ sid clients, m sid = some clients → clients ≠ []

/-- The concrete scenario: add client `A = 0`, add client `B = 1`,
remove `A`, remove `B`, on session `"S"` starting from the empty map. -/
def c3empty : WatcherMap := fun _ => none

def c3step1 : WatcherMap × List WatcherEvent := addClient c3empty "S" 0

def c3step2 : WatcherMap × List WatcherEvent := addClient c3step1.1 "S" 1

def c3step3 : WatcherMap × List WatcherEvent := removeClient c3step2.1 "S" 0

def c3step4 : WatcherMap × List WatcherEvent := removeClient c3step3.1 "S" 1

def c3trace : List WatcherEvent := c3step1.2 ++ c3step2.2 ++ c3step3.2 ++ c3step4.2

theorem addClient_preserves_invariant (m : WatcherMap) (sid : String) (c : Nat)
    (hinv : watcherInvariant m) : watcherInvariant (addClient m sid c).1 := by
  intro s clients hs
  unfold addClient at hs
  cases hm : m sid with
  | none =>
      rw [hm] at hs
      simp only [wSet] at hs
      by_cases hssid : s = sid
      · rw [if_pos hssid] at hs
        cases hs
        simp
      · rw [if_neg hssid, if_neg hssid] at hs
        exact hinv s clients hs
  | some cl =>
      rw [hm] at hs
      simp only [wSet] at hs
      by_cases hssid : s = sid
      · rw [if_pos hssid] at hs
        have hne : cl ≠ [] := hinv sid cl (hssid ▸ hm)
        cases hs
        by_cases hc : c ∈ cl <;> simp [hc, hne]
      · rw [if_neg hssid] at hs
        exact hinv s clients hs

theorem removeClient_preserves_invariant (m : WatcherMap) (sid : String) (c : Nat)
    (hinv : watcherInvariant m) : watcherInvariant (removeClient m sid c).1 := by
  intro s clients hs
  cases hm : m sid with
  | none =>
      simp only [removeClient, hm] at hs
      exact hinv s clients hs
  | some cl =>
      simp only [removeClient, hm] at hs
      by_cases hc : c ∈ cl
      · rw [if_pos hc] at hs
        by_cases hemp : (cl.erase c).isEmpty
        · rw [if_pos hemp] at hs
          simp only [wDel] at hs
          by_cases hssid : s = sid
          · rw [if_pos hssid] at hs
            cases hs
          · rw [if_neg hssid] at hs
            exact hinv s clients hs
        · rw [if_neg hemp] at hs
          simp only [wSet] at hs
          by_cases hssid : s = sid
          · rw [if_pos hssid] at hs
            cases hs
            simpa [List.isEmpty_iff] using hemp
          · rw [if_neg hssid] at hs
            exact hinv s clients hs
      · rw [if_neg hc] at hs
        exact hinv s clients hs

/-- C3: every session shares one watcher among its clients.  First part: the
"entry exists iff clients non-empty" invariant is preserved by every
`addClient` and `removeClient` call.  Second part, the reference-counting
scenario (add `A`, add `B`, remove `A`, remove `B`): the watcher is created
exactly once (at `A`'s add), the session entry is still present with a
non-empty client set after removing `A`, and the watcher is closed exactly
once — at `B`'s removal — with the session entry deleted. -/
theorem streamWatcher_refcount (m : WatcherMap) (sid : String) (c : Nat)
    (hinv : watcherInvariant m) :
    (watcherInvariant (addClient m sid c).1 ∧ watcherInvariant (removeClient m sid c).1)
    ∧ (c3trace.count (WatcherEvent.created "S") = 1
        ∧ c3trace.count (WatcherEvent.closed "S") = 1
        ∧ c3step1.2 = [WatcherEvent.created "S"]
        ∧ c3step2.2 = []
        ∧ c3step3.2 = []
        ∧ c3step3.1 "S" = some [1]
        ∧ c3step4.2 = [WatcherEvent.closed "S"]
        ∧ c3step4.1 "S" = none) :=
  ⟨⟨addClient_preserves_invariant m sid c hinv,
    removeClient_preserves_invariant m sid c hinv⟩,
   by decide, by decide, by decide, by decide, by decide, by decide, by decide, by decide⟩

/-- Witness for `streamWatcher_refcount` at the empty map (which trivially
satisfies the invariant). -/
theorem streamWatcher_refcount_witness :
    watcherInvariant (addClient c3empty "S" 0).1 :=
  (streamWatcher_refcount c3empty "S" 0 (fun _ _ h => by cases h)).1.1

/-! Subscription handling of `BufferAggregator.handleClientMessage`
(`subscribe` branch, lines 142-169) together with
`ensureHistorySubscription` (lines 206-215), modelled for a non-HQ
deployment (no remote registry), where the local path of lines 163-166 is
taken.  The duplicate check of lines 146-150 runs before the local/remote
split, so it is mode-independent. -/

/-- Messages and side effects observable from the subscribe path: the
`subscribed` acknowledgement (with its `dedup` flag), the registration of a
buffer-change watcher callback, and the creation of a history-store
subscription. -/
inductive AggMsg where
  | subscribedAck (sessionId : String) (dedup : Bool)
  | watcherSubscribed (sessionId : String)
  | historySubscribed (sessionId : String)
deriving DecidableEq, Repr

/-- Aggregator state: `clientSubscriptions` (per-connection session map,
modelled as the list of subscribed session ids; `none` = unregistered
connection) and `historySubscriptions` keyed by session, plus whether a
history store is configured. -/
structure AggState where
  clientSubs : Nat → Option (List String)
  historySubs : List String
  hasHistoryStore : Bool

/-- `BufferAggregator.ensureHistorySubscription`. -/
def ensureHistorySubscription (s : AggState) (sid : String) : AggState × List AggMsg :=
  if !s.hasHistoryStore then (s, [])
  else if sid ∈ s.historySubs then (s, [])
  else ({ s with historySubs := s.historySubs ++ [sid] }, [.historySubscribed sid])

/-- The `subscribe` branch of `BufferAggregator.handleClientMessage`:
missing connection entry returns; a session already in the client's map is
acknowledged with `dedup: true` and nothing else happens; otherwise the
local subscription is created (buffer-change watcher registered and stored
in the client's map, history subscription ensured) and a plain
acknowledgement is sent. -/
def handleSubscribe (s : AggState) (ws : Nat) (sid : String) : AggState × List AggMsg :=
  match s.clientSubs ws with
  | none => (s, [])
  | some subs =>
      if sid ∈ subs then
        (s, [.subscribedAck sid true])
      else
        let s1 : AggState :=
          { s with clientSubs := fun w => if w = ws then some (subs ++ [sid]) else s.clientSubs w }
        let step := ensureHistorySubscription s1 sid
        (step.1, [.watcherSubscribed sid] ++ step.2 ++ [.subscribedAck sid false])

/-- C9: subscribe is idempotent per (client, session).  If the connection
already holds a subscription to `sid`, a further `subscribe` leaves the whole
aggregator state unchanged (no new watcher subscription, no new
history-store subscription, untouched client map) and is acknowledged as a
duplicate; moreover, immediately after any subscribe by a registered client,
a second subscribe for the same session behaves exactly that way. -/
theorem subscribe_idempotent (s : AggState) (ws : Nat) (sid : String) (subs : List String)
    (hreg : s.clientSubs ws = some subs) :
    (sid ∈ subs →
        handleSubscribe s ws sid = (s, [AggMsg.subscribedAck sid true]))
    ∧ handleSubscribe (handleSubscribe s ws sid).1 ws sid
        = ((handleSubscribe s ws sid).1, [AggMsg.subscribedAck sid true]) := by
  constructor
  · intro hmem
    simp only [handleSubscribe, hreg]
    rw [if_pos hmem]
  · by_cases hmem : sid ∈ subs
    · simp only [handleSubscribe, hreg]
      rw [if_pos hmem]
      simp only [hreg]
      rw [if_pos hmem]
    · have hfirst : (handleSubscribe s ws sid).1.clientSubs ws = some (subs ++ [sid]) := by
        simp only [handleSubscribe, hreg]
        rw [if_neg hmem]
        cases h1 : s.hasHistoryStore <;> by_cases h2 : sid ∈ s.historySubs <;>
          simp [ensureHistorySubscription, h1, h2]
      have hsecond : ∀ t : AggState, t.clientSubs ws = some (subs ++ [sid]) →
          handleSubscribe t ws sid = (t, [AggMsg.subscribedAck sid true]) := by
        intro t ht
        simp only [handleSubscribe, ht]
        rw [if_pos (by simp : sid ∈ subs ++ [sid])]
      exact hsecond _ hfirst

/-- Witness for `subscribe_idempotent`: one registered client already
subscribed to `"s1"`; re-subscribing acknowledges the duplicate and changes
nothing. -/
theorem subscribe_idempotent_witness :
    handleSubscribe
        { clientSubs := fun w => if w = 0 then some ["s1"] else none
          historySubs := ["s1"], hasHistoryStore := true } 0 "s1"
      = ({ clientSubs := fun w => if w = 0 then some ["s1"] else none
           historySubs := ["s1"], hasHistoryStore := true }, [AggMsg.subscribedAck "s1" true]) :=
  (subscribe_idempotent
      { clientSubs := fun w => if w = 0 then some ["s1"] else none
        historySubs := ["s1"], hasHistoryStore := true } 0 "s1" ["s1"] (by simp)).1
    (by simp)

/-! The task offload pool (`web/src/server/workers/pool.ts`).  Workers are
modelled by their scheduler-visible state (`busy`, `pending` task id), the
FIFO queue by a list of task ids, and the effects of a call (task rejections
and `postMessage` dispatches) by an event list.  Promise resolution is not
modelled; `runTask`'s third component is `some reason` exactly when the call
rejects immediately. -/

/-- `WorkerWrapper` scheduling state. -/
structure WorkerWrapper where
  busy : Bool
  pending : Option Nat
deriving DecidableEq, Repr

/-- `WorkerPool` state relevant to queueing and degradation. -/
structure PoolState where
  workers : List WorkerWrapper
  queue : List Nat
  nextTaskId : Nat
  disabled : Bool
  disableReason : Option String
deriving DecidableEq, Repr

/-- Observable effects of pool operations. -/
inductive PoolEvent where
  | rejected (taskId : Nat) (reason : String)
  | dispatched (taskId : Nat)
deriving DecidableEq, Repr

/-- `new Error(this.disableReason ?? 'worker pool disabled')`. -/
def disabledReasonOf (s : PoolState) : String :=
  s.disableReason.getD "worker pool disabled"

/-- `WorkerPool.processQueue` (pool.ts, lines 180-211): a disabled pool
drains its queue, rejecting every task with the stored reason; otherwise one
queued task is handed to the first free worker, if any. -/
def processQueue (s : PoolState) : PoolState × List PoolEvent :=
  if s.disabled then
    ({ s with queue := [] }, s.queue.map fun t => .rejected t (disabledReasonOf s))
  else
    match s.queue with
    | [] => (s, [])
    | t :: rest =>
        match s.workers.findIdx? (fun w => !w.busy) with
        | none => (s, [])
        | some i =>
            ({ s with
                queue := rest
                workers := s.workers.set i { busy := true, pending := some t } },
              [.dispatched t])

/-- `WorkerPool.runTask` (pool.ts, lines 66-83): a disabled pool rejects
immediately with the stored reason (third component `some reason`); otherwise
the task is queued and the queue processed. -/
def runTask (s : PoolState) : PoolState × List PoolEvent × Option String :=
  if s.disabled then
    (s, [], some (disabledReasonOf s))
  else
    let task := s.nextTaskId
    let s2 := { s with nextTaskId := s.nextTaskId + 1, queue := s.queue ++ [task] }
    let step := processQueue s2
    (step.1, step.2, none)

/-- `WorkerPool.handleWorkerFailure` (pool.ts, lines 152-178): already
disabled is a no-op; otherwise the dead worker's in-flight task is rejected
with the failure message, the worker is removed, a replacement spawn is
attempted (`spawnError = some msg` models `createWorker` throwing `msg`,
which disables the pool and stores the reason), and the queue is processed. -/
def handleWorkerFailure (s : PoolState) (widx : Nat) (failureMsg : String)
    (spawnError : Option String) : PoolState × List PoolEvent :=
  if s.disabled then (s, [])
  else
    let pendingEvs : List PoolEvent :=
      match (s.workers.get? widx).bind (fun w => w.pending) with
      | some t => [.rejected t failureMsg]
      | none => []
    let workers2 := s.workers.eraseIdx widx
    let s2 :=
      match spawnError with
      | none => { s with workers := workers2 ++ [{ busy := false, pending := none }] }
      | some msg =>
          { s with workers := workers2, disabled := true, disableReason := some msg }
    let step := processQueue s2
    (step.1, pendingEvs ++ step.2)

/-- C4: once the pool is disabled, `runTask` rejects immediately with the
stored disable reason and changes nothing; the failure that disables the pool
(a replacement spawn error) rejects every task queued at that moment with the
new disable reason, empties the queue, keeps the pool disabled, and
dispatches nothing; and a disabled pool's `processQueue` never dispatches and
never re-enables. -/
theorem pool_disabled_spec (s : PoolState) (widx : Nat) (failureMsg emsg : String) :
    (s.disabled = true →
        runTask s = (s, [], some (disabledReasonOf s))
        ∧ (processQueue s).1.disabled = true
        ∧ (processQueue s).2.all
            (fun e => match e with | .dispatched _ => false | _ => true) = true)
    ∧ (s.disabled = false →
        (handleWorkerFailure s widx failureMsg (some emsg)).1.disabled = true
        ∧ (handleWorkerFailure s widx failureMsg (some emsg)).1.disableReason = some emsg
        ∧ (handleWorkerFailure s widx failureMsg (some emsg)).1.queue = []
        ∧ (∀ t ∈ s.queue,
            PoolEvent.rejected t emsg ∈ (handleWorkerFailure s widx failureMsg (some emsg)).2)
        ∧ (handleWorkerFailure s widx failureMsg (some emsg)).2.all
            (fun e => match e with | .dispatched _ => false | _ => true) = true) := by
  constructor
  · intro hdis
    refine ⟨?_, ?_, ?_⟩
    · simp [runTask, hdis]
    · simp [processQueue, hdis]
    · simp only [processQueue, hdis, if_pos]
      simp [List.all_eq_true]
  · intro hdis
    have hred : handleWorkerFailure s widx failureMsg (some emsg) =
        (let pendingEvs : List PoolEvent :=
          match (s.workers.get? widx).bind (fun w => w.pending) with
          | some t => [.rejected t failureMsg]
          | none => []
        let s2 : PoolState := { s with
            workers := s.workers.eraseIdx widx
            disabled := true
            disableReason := some emsg }
        (({ s2 with queue := [] } : PoolState),
          pendingEvs ++ s2.queue.map fun t => PoolEvent.rejected t (disabledReasonOf s2))) := by
      simp [handleWorkerFailure, hdis, processQueue]
    rw [hred]
    refine ⟨?_, ?_, ?_, ?_, ?_⟩
    · rfl
    · rfl
    · rfl
    · intro t ht
      simp only [disabledReasonOf, List.mem_append, List.mem_map]
      exact Or.inr ⟨t, ht, rfl⟩
    · cases hw : (s.workers.get? widx).bind (fun w => w.pending) <;>
        simp [List.all_eq_true, hw]

/-- Disabled pool used by the witness. -/
def deadPool : PoolState :=
  { workers := []
    queue := []
    nextTaskId := 0
    disabled := true
    disableReason := some "worker script not found" }

/-- Live single-worker pool with one queued task, used by the witness. -/
def livePool : PoolState :=
  { workers := [{ busy := true, pending := some 3 }]
    queue := [7]
    nextTaskId := 8
    disabled := false
    disableReason := none }

/-- Witness for `pool_disabled_spec`: a disabled pool rejects a `runTask`
call immediately with its stored reason, and a live pool with one queued
task that hits a failing replacement spawn rejects that task with the new
reason. -/
theorem pool_disabled_spec_witness :
    runTask deadPool = (deadPool, [], some "worker script not found")
    ∧ PoolEvent.rejected 7 "spawn failed" ∈
        (handleWorkerFailure livePool 0 "worker crashed" (some "spawn failed")).2 :=
  ⟨((pool_disabled_spec deadPool 0 "x" "y").1 rfl).1,
   ((pool_disabled_spec livePool 0 "worker crashed" "spawn failed").2 rfl).2.2.2.1
      7 (by decide)⟩

/-! The server-sent-events router (`createEventsRouter`): per-client-key
connection admission with oldest-first eviction.  `clients : Set` and
`clientBuckets : Map<string, Set>` become an insertion-ordered list and a
functional map to insertion-ordered lists (a JavaScript `Set` iterates in
insertion order, so `values().next().value` is the head). -/

/-- A streaming connection: an identifier plus its derived client key. -/
structure Conn where
  id : Nat
  key : String
deriving DecidableEq, Repr

/-- Router state. -/
structure EventsState where
  clients : List Conn
  buckets : String → List Conn

/-- The `MAX_CONNECTIONS_PER_KEY` computation: a finite parsed value `> 0`
bounds each bucket, anything else (unset / non-numeric / `≤ 0`) means
`Infinity`, modelled as `none`. -/
def maxConnectionsPerKey (parsed : Option Int) : Option Nat :=
  match parsed with
  | some v => if 0 < v then some v.toNat else none
  | none => none

/-- `cleanupClient`: a no-op unless the connection is registered; otherwise
it is removed from the global set and from its key's bucket. -/
def cleanupClient (s : EventsState) (c : Conn) : EventsState :=
  if c ∈ s.clients then
    { clients := s.clients.erase c
      buckets := fun k => if k = c.key then (s.buckets c.key).erase c else s.buckets k }
  else s

/-- Admission result of a `GET /events` request. -/
inductive AdmitResult where
  | admitted (evicted : Option Conn)
  | rejected
deriving DecidableEq, Repr

/-- Registration of an admitted connection (`clients.add(client)` followed by
`bucket.add(client)`). -/
def admitConn (s : EventsState) (c : Conn) : EventsState :=
  { clients := s.clients ++ [c]
    buckets := fun k => if k = c.key then s.buckets c.key ++ [c] else s.buckets k }

/-- The admission logic of the `/events` handler (events router, lines
103-165): with a finite cap, a full bucket first evicts its oldest
connection, then re-checks; only a still-full bucket rejects the request. -/
def handleConnection (cap : Option Nat) (s : EventsState) (c : Conn) :
    EventsState × AdmitResult :=
  match cap with
  | none => (admitConn s c, .admitted none)
  | some limit =>
      if limit ≤ (s.buckets c.key).length then
        match (s.buckets c.key).head? with
        | some oldest =>
            let s2 := cleanupClient s oldest
            if limit ≤ (s2.buckets c.key).length then (s2, .rejected)
            else (admitConn s2 c, .admitted (some oldest))
        | none =>
            if limit ≤ (s.buckets c.key).length then (s, .rejected)
            else (admitConn s c, .admitted none)
      else (admitConn s c, .admitted none)

/-- C7: admission is unbounded when the cap is unset or `≤ 0`; with a cap
`limit > 0` and a well-formed state (every bucket member is registered under
its own key) whose bucket is within the cap, a below-cap bucket admits
without eviction, a bucket at capacity evicts its oldest member and admits
the new connection, the request is never refused (refusal would require the
bucket to still be at capacity after the eviction), and the bucket never
exceeds the cap after admission. -/
theorem events_admission_spec (parsed : Option Int) (s : EventsState) (c : Conn)
    (limit : Nat) (hpos : 0 < limit)
    (hwf : ∀ x ∈ s.buckets c.key, x ∈ s.clients ∧ x.key = c.key)
    (hbound : (s.buckets c.key).length ≤ limit) :
    ((maxConnectionsPerKey parsed = none →
        (handleConnection (maxConnectionsPerKey parsed) s c).2 = .admitted none))
    ∧ ((s.buckets c.key).length < limit →
        handleConnection (some limit) s c = (admitConn s c, .admitted none))
    ∧ ((s.buckets c.key).length = limit →
        (handleConnection (some limit) s c).2
          = .admitted ((s.buckets c.key).head?)
        ∧ ((handleConnection (some limit) s c).1.buckets c.key).length = limit)
    ∧ (handleConnection (some limit) s c).2 ≠ .rejected
    ∧ ((handleConnection (some limit) s c).1.buckets c.key).length ≤ limit := by
  have hmain : ((s.buckets c.key).length < limit →
        handleConnection (some limit) s c = (admitConn s c, .admitted none))
      ∧ ((s.buckets c.key).length = limit →
        (handleConnection (some limit) s c).2 = .admitted ((s.buckets c.key).head?)
        ∧ ((handleConnection (some limit) s c).1.buckets c.key).length = limit)
      ∧ (handleConnection (some limit) s c).2 ≠ .rejected
      ∧ ((handleConnection (some limit) s c).1.buckets c.key).length ≤ limit := by
    rcases Nat.lt_or_ge (s.buckets c.key).length limit with hlt | hge
    · have hred : handleConnection (some limit) s c = (admitConn s c, .admitted none) := by
        simp only [handleConnection]
        rw [if_neg (by omega)]
      refine ⟨fun _ => hred, fun heq => by omega, ?_, ?_⟩
      · rw [hred]
        simp
      · rw [hred]
        simp [admitConn]
        omega
    · have heq : (s.buckets c.key).length = limit := by omega
      have hne : s.buckets c.key ≠ [] :=
        List.length_pos.mp (by omega)
      obtain ⟨oldest, rest, hcons⟩ := List.exists_cons_of_ne_nil hne
      have hhead : (s.buckets c.key).head? = some oldest := by rw [hcons]; rfl
      have holdmem : oldest ∈ s.buckets c.key := by rw [hcons]; simp
      obtain ⟨holdcl, holdkey⟩ := hwf oldest holdmem
      have hclean : (cleanupClient s oldest).buckets c.key = (s.buckets c.key).erase oldest := by
        simp only [cleanupClient, if_pos holdcl]
        rw [holdkey]
        simp
      have herase : ((s.buckets c.key).erase oldest).length = limit - 1 := by
        rw [List.length_erase_of_mem holdmem, heq]
      have hred : handleConnection (some limit) s c
          = (admitConn (cleanupClient s oldest) c, .admitted (some oldest)) := by
        simp only [handleConnection]
        rw [if_pos (by omega), hhead]
        simp only [hclean]
        rw [if_neg (by omega)]
      have hlen : ((admitConn (cleanupClient s oldest) c).buckets c.key).length = limit := by
        simp [admitConn, hclean, herase]
        omega
      refine ⟨fun h => by omega, fun _ => ?_, ?_, ?_⟩
      · rw [hred, hhead]
        exact ⟨rfl, hlen⟩
      · rw [hred]
        simp
      · rw [hred]
        exact le_of_eq hlen
  refine ⟨fun hnone => ?_, hmain⟩
  rw [hnone]
  rfl

/-- Witness for `events_admission_spec`: key `"k"` at its cap of 1 with one
registered connection evicts that oldest connection and admits the newcomer,
leaving the bucket at the cap. -/
theorem events_admission_spec_witness :
    (handleConnection (some 1)
        { clients := [{ id := 1, key := "k" }]
          buckets := fun k => if k = "k" then [{ id := 1, key := "k" }] else [] }
        { id := 2, key := "k" }).2
      = AdmitResult.admitted (some { id := 1, key := "k" }) :=
  ((events_admission_spec none
      { clients := [{ id := 1, key := "k" }]
        buckets := fun k => if k = "k" then [{ id := 1, key := "k" }] else [] }
      { id := 2, key := "k" } 1 (by decide)
      (by intro x hx; simp at hx; subst hx; simp)
      (by simp)).2.2.1 (by simp)).1

/-! The snapshot encoder (`web/src/server/workers/tasks/encode-snapshot.ts`).
Node `Buffer` writes become byte lists (`List Nat`); `writeUIntNLE` and
`writeInt32LE` are modelled by explicit little-endian byte decompositions
(two's complement for signed fields); JavaScript `undefined`-able numeric
fields become `Option Nat`. -/

/-- A terminal cell (`BufferCell`). -/
structure BufferCell where
  char : String
  width : Nat
  fg : Option Nat
  bg : Option Nat
  attributes : Option Nat
deriving DecidableEq, Repr

/-- A terminal screen snapshot (`Snapshot`). -/
structure Snapshot where
  cols : Nat
  rows : Nat
  viewportY : Int
  cursorX : Int
  cursorY : Int
  cells : List (List BufferCell)
deriving DecidableEq, Repr

/-- Little-endian `uint16`. -/
def u16le (v : Nat) : List Nat := [v % 256, v / 256 % 256]

/-- Little-endian `uint32`. -/
def u32le (v : Nat) : List Nat :=
  [v % 256, v / 256 % 256, v / 65536 % 256, v / 16777216 % 256]

/-- Little-endian `int32` (two's complement). -/
def i32le (v : Int) : List Nat := u32le (v % 4294967296).toNat

/-- UTF-8 bytes of a string (`Buffer.from(s, 'utf8')`). -/
def utf8Bytes (s : String) : List Nat := s.toUTF8.toList.map UInt8.toNat

/-- `${x ?? ''}` for an optional numeric field. -/
def optNumStr : Option Nat → String
  | some v => toString v
  | none => ""

/-- The per-cell fragment of the `hashRow` fingerprint
(`char:width:fg:bg:attributes`). -/
def hashCell (cell : BufferCell) : String :=
  cell.char ++ ":" ++ toString cell.width ++ ":" ++ optNumStr cell.fg ++ ":"
    ++ optNumStr cell.bg ++ ":" ++ optNumStr cell.attributes

/-- `hashRow`: `'EMPTY'` for an empty row, else the cell fragments joined
with `'|'`. -/
def hashRow (row : List BufferCell) : String :=
  if row.isEmpty then "EMPTY" else String.intercalate "|" (row.map hashCell)

/-- `cell.attributes && cell.attributes !== 0` (truthiness: `undefined` and
`0` are falsy). -/
def hasAttrs (cell : BufferCell) : Bool :=
  match cell.attributes with
  | some a => a != 0
  | none => false

/-- `cell.fg !== undefined`. -/
def hasFg (cell : BufferCell) : Bool := cell.fg.isSome

/-- `cell.bg !== undefined`. -/
def hasBg (cell : BufferCell) : Bool := cell.bg.isSome

/-- `cell.char === ' '`. -/
def isSpaceChar (cell : BufferCell) : Bool := cell.char == " "

/-- `cell.char.charCodeAt(0) <= 127`: the first UTF-16 unit is ASCII.  An
empty string gives `NaN <= 127 = false`; any non-ASCII first code point has
its first UTF-16 unit above 127, so comparing the first code point is
equivalent. -/
def isAsciiChar (cell : BufferCell) : Bool :=
  match cell.char.data with
  | [] => false
  | ch :: _ => ch.toNat ≤ 127

/-- `!cell.fg` (falsy: `undefined` or `0`). -/
def fgFalsy (cell : BufferCell) : Bool :=
  match cell.fg with
  | none => true
  | some v => v == 0

/-- `!cell.bg`. -/
def bgFalsy (cell : BufferCell) : Bool :=
  match cell.bg with
  | none => true
  | some v => v == 0

/-- `!cell.attributes`. -/
def attrsFalsy (cell : BufferCell) : Bool :=
  match cell.attributes with
  | none => true
  | some v => v == 0

/-- The blank-row test shared by `calculateRowSize` and `encodeRow`:
an empty row, or a single space cell with falsy fg/bg/attributes. -/
def isBlankRow : List BufferCell → Bool
  | [] => true
  | [cell] => isSpaceChar cell && fgFalsy cell && bgFalsy cell && attrsFalsy cell
  | _ => false

/-- Bytes contributed by the fg (resp. bg) colour in the extended cell
encoding: palette index in one byte, or `0xFF` plus a 16-bit value. -/
def colorSize : Option Nat → Nat
  | some v => if 255 < v then 3 else 1
  | none => 0

/-- `calculateCellSize` (encode-snapshot.ts, lines 37-70), exactly as in the
source: one byte for a plain space; otherwise a marker byte, the character
bytes, and — when any of attributes/fg/bg is present — a flags byte plus the
colour bytes.  (Note: the source adds no byte for the attributes value.) -/
def calculateCellSize (cell : BufferCell) : Nat :=
  if isSpaceChar cell && !hasAttrs cell && !hasFg cell && !hasBg cell then
    1
  else
    (if isAsciiChar cell then 1 + 1 else 1 + 1 + (utf8Bytes cell.char).length)
    + (if hasAttrs cell || hasFg cell || hasBg cell then
        1 + colorSize cell.fg + colorSize cell.bg
      else 0)

/-- `calculateRowSize` (lines 72-89): 2 bytes for a blank row, else a marker
byte, a 2-byte cell count, and the cell sizes. -/
def calculateRowSize (rowCells : List BufferCell) : Nat :=
  if isBlankRow rowCells then 2
  else 3 + (rowCells.map calculateCellSize).sum

/-- Colour bytes actually written by `encodeRow`. -/
def colorBytes : Option Nat → List Nat
  | some v => if 255 < v then [0xff] ++ u16le v else [v]
  | none => []

/-- The flags byte: `0x01` attributes, `0x02` fg, `0x04` bg. -/
def cellFlags (cell : BufferCell) : Nat :=
  (if hasAttrs cell then 1 else 0) + (if hasFg cell then 2 else 0)
    + (if hasBg cell then 4 else 0)

/-- The bytes `encodeRow` writes for one cell (lines 109-163): `0x00` for a
plain space; else `0x01`, the character (ASCII byte, or length-prefixed
UTF-8), and optionally the flags byte, the attributes byte, and the colour
bytes. -/
def encodeCell (cell : BufferCell) : List Nat :=
  if isSpaceChar cell && !hasAttrs cell && !hasFg cell && !hasBg cell then
    [0x00]
  else
    [0x01]
    ++ (if isAsciiChar cell then [(cell.char.data.headD ' ').toNat]
        else (utf8Bytes cell.char).length :: utf8Bytes cell.char)
    ++ (if hasAttrs cell || hasFg cell || hasBg cell then
          [cellFlags cell]
          ++ (match cell.attributes with
              | some a => if a != 0 then [a] else []
              | none => [])
          ++ colorBytes cell.fg
          ++ colorBytes cell.bg
        else [])

/-- `encodeRow` (lines 91-166): two `0x00` bytes for a blank row, else
`0x01`, a little-endian cell count, and the encoded cells. -/
def encodeRow (rowCells : List BufferCell) : List Nat :=
  if isBlankRow rowCells then [0x00, 0x00]
  else 0x01 :: u16le rowCells.length ++ rowCells.flatMap encodeCell

/-- `previousSnapshot && cols/rows/viewportY all equal`. -/
def dimsMatch (current previous : Snapshot) : Bool :=
  previous.cols == current.cols && previous.rows == current.rows
    && previous.viewportY == current.viewportY

/-- The changed-row collection of `encodeSnapshot` (lines 183-190): indices
below the current row count whose fingerprint differs from the previous
snapshot's (a missing previous row hash — JavaScript `undefined` — always
differs), paired with the current row. -/
def changedRowsOf (current previous : Snapshot) : List (Nat × List BufferCell) :=
  ((List.range current.cells.length).filter fun i =>
      (previous.cells.map hashRow).get? i != (current.cells.map hashRow).get? i).map
    fun i => (i, current.cells.getD i [])

/-- The 28-byte frame header written by both branches of `encodeSnapshot`
(lines 212-227 and 245-260): magic `0x5654` (uint16), version `0x01`, the
flag byte, `cols` and `rows` (uint32), `viewportY`, `cursorX`, `cursorY`
(int32) and a reserved uint32 `0`. -/
def frameHeader (s : Snapshot) (flags : Nat) : List Nat :=
  u16le 0x5654 ++ [0x01, flags] ++ u32le s.cols ++ u32le s.rows
    ++ i32le s.viewportY ++ i32le s.cursorX ++ i32le s.cursorY ++ u32le 0

/-- `encodeSnapshot` (lines 168-268): decides between a diff frame (changed
rows only, each prefixed by its uint16 index) and a full frame, and returns
the bytes written together with `usedDiff`. -/
def encodeSnapshot (snapshot : Snapshot) (previousSnapshot : Option Snapshot) :
    List Nat × Bool :=
  let changedRows :=
    match previousSnapshot with
    | some prev => if dimsMatch snapshot prev then changedRowsOf snapshot prev else []
    | none => []
  let useDiff : Bool :=
    0 < changedRows.length && changedRows.length < snapshot.cells.length
  if useDiff && 0 < changedRows.length then
    (frameHeader snapshot 0x01 ++ u16le changedRows.length
      ++ changedRows.flatMap (fun p => u16le p.1 ++ encodeRow p.2), useDiff)
  else
    (frameHeader snapshot 0x00 ++ snapshot.cells.flatMap encodeRow, useDiff)

/-- Number of changed rows between two snapshots of matching geometry. -/
def changedRowCount (current previous : Snapshot) : Nat :=
  (changedRowsOf current previous).length

/-- C2: `usedDiff` is `false` when there is no previous snapshot or its
`cols`/`rows`/`viewportY` differ; with matching geometry it is `true` exactly
when the changed-fingerprint row count is strictly between `0` and the total
row count; and whenever `usedDiff` is `false` a full frame (flag byte `0`,
all rows) is emitted, while a diff frame always carries at least one row —
never an empty diff. -/
theorem encodeSnapshot_usedDiff_spec (current : Snapshot) (previous : Option Snapshot) :
    ((encodeSnapshot current none).2 = false)
    ∧ (∀ prev, previous = some prev → dimsMatch current prev = false →
        (encodeSnapshot current previous).2 = false)
    ∧ (∀ prev, previous = some prev → dimsMatch current prev = true →
        (encodeSnapshot current previous).2
          = decide (0 < changedRowCount current prev
              ∧ changedRowCount current prev < current.cells.length))
    ∧ ((encodeSnapshot current previous).2 = false →
        (encodeSnapshot current previous).1
          = frameHeader current 0x00 ++ current.cells.flatMap encodeRow)
    ∧ ((encodeSnapshot current previous).2 = true →
        ∀ prev, previous = some prev →
          (encodeSnapshot current previous).1
            = frameHeader current 0x01 ++ u16le (changedRowCount current prev)
              ++ (changedRowsOf current prev).flatMap (fun p => u16le p.1 ++ encodeRow p.2)
          ∧ 0 < changedRowCount current prev) := by
  refine ⟨?_, ?_, ?_, ?_, ?_⟩
  · simp [encodeSnapshot]
  · rintro prev rfl hdm
    simp [encodeSnapshot, hdm]
  · rintro prev rfl hdm
    by_cases h1 : 0 < (changedRowsOf current prev).length <;>
      by_cases h2 : (changedRowsOf current prev).length < current.cells.length <;>
      simp [encodeSnapshot, hdm, h1, h2, changedRowCount]
  · intro hfull
    match previous with
    | none => simp [encodeSnapshot]
    | some prev =>
        by_cases hdm : dimsMatch current prev
        · by_cases h1 : 0 < (changedRowsOf current prev).length
          · by_cases h2 : (changedRowsOf current prev).length < current.cells.length
            · exfalso
              simp [encodeSnapshot, hdm, h1, h2] at hfull
            · simp [encodeSnapshot, hdm, h1, h2]
          · simp [encodeSnapshot, hdm, h1]
        · simp [encodeSnapshot, hdm]
  · intro hdiff prev hprev
    subst hprev
    by_cases hdm : dimsMatch current prev
    · by_cases h1 : 0 < (changedRowsOf current prev).length
      · by_cases h2 : (changedRowsOf current prev).length < current.cells.length
        · refine ⟨?_, h1⟩
          simp [encodeSnapshot, hdm, h1, h2, changedRowCount]
        · exfalso
          simp [encodeSnapshot, hdm, h1, h2] at hdiff
      · exfalso
        simp [encodeSnapshot, hdm, h1] at hdiff
    · exfalso
      simp [encodeSnapshot, hdm] at hdiff

/-- Witness for `encodeSnapshot_usedDiff_spec`: a two-row snapshot whose
previous snapshot matches geometry and differs in exactly one row encodes as
a diff (`usedDiff = true`); with no previous snapshot, `usedDiff = false`. -/
theorem encodeSnapshot_usedDiff_spec_witness :
    (encodeSnapshot
        { cols := 1, rows := 2, viewportY := 0, cursorX := 0, cursorY := 0
          cells := [[{ char := "a", width := 1, fg := none, bg := none, attributes := none }],
                    [{ char := "b", width := 1, fg := none, bg := none, attributes := none }]] }
        (some { cols := 1, rows := 2, viewportY := 0, cursorX := 0, cursorY := 0
                cells := [[{ char := "a", width := 1, fg := none, bg := none, attributes := none }],
                          [{ char := "c", width := 1, fg := none, bg := none, attributes := none }]] })).2
      = true :=
  ((encodeSnapshot_usedDiff_spec
      { cols := 1, rows := 2, viewportY := 0, cursorX := 0, cursorY := 0
        cells := [[{ char := "a", width := 1, fg := none, bg := none, attributes := none }],
                  [{ char := "b", width := 1, fg := none, bg := none, attributes := none }]] }
      (some { cols := 1, rows := 2, viewportY := 0, cursorX := 0, cursorY := 0
              cells := [[{ char := "a", width := 1, fg := none, bg := none, attributes := none }],
                        [{ char := "c", width := 1, fg := none, bg := none, attributes := none }]] })).2.2.1
    _ rfl (by decide)).trans (by decide)

theorem encodeSnapshot_shape (s : Snapshot) (prev : Option Snapshot) :
    ∃ body : List Nat,
      (encodeSnapshot s prev).1
        = frameHeader s (if (encodeSnapshot s prev).2 then 0x01 else 0x00) ++ body
      ∧ ((encodeSnapshot s prev).2 = false → body = s.cells.flatMap encodeRow)
      ∧ ((encodeSnapshot s prev).2 = true →
          ∃ pairs : List (Nat × List BufferCell), 0 < pairs.length
            ∧ body = u16le pairs.length
                ++ pairs.flatMap (fun p => u16le p.1 ++ encodeRow p.2)) := by
  match prev with
  | none =>
      refine ⟨s.cells.flatMap encodeRow, ?_, fun _ => rfl, fun h => ?_⟩
      · simp [encodeSnapshot]
      · simp [encodeSnapshot] at h
  | some p =>
      by_cases hdm : dimsMatch s p
      · by_cases h1 : 0 < (changedRowsOf s p).length
        · by_cases h2 : (changedRowsOf s p).length < s.cells.length
          · refine ⟨u16le (changedRowsOf s p).length
                ++ (changedRowsOf s p).flatMap (fun q => u16le q.1 ++ encodeRow q.2),
              ?_, fun h => ?_, fun _ => ⟨changedRowsOf s p, h1, rfl⟩⟩
            · simp [encodeSnapshot, hdm, h1, h2]
            · simp [encodeSnapshot, hdm, h1, h2] at h
          · refine ⟨s.cells.flatMap encodeRow, ?_, fun _ => rfl, fun h => ?_⟩
            · simp [encodeSnapshot, hdm, h1, h2]
            · simp [encodeSnapshot, hdm, h1, h2] at h
        · refine ⟨s.cells.flatMap encodeRow, ?_, fun _ => rfl, fun h => ?_⟩
          · simp [encodeSnapshot, hdm, h1]
          · simp [encodeSnapshot, hdm, h1] at h
      · refine ⟨s.cells.flatMap encodeRow, ?_, fun _ => rfl, fun h => ?_⟩
        · simp [encodeSnapshot, hdm]
        · simp [encodeSnapshot, hdm] at h

/-- C6 (amended): every encoded frame begins with a fixed 28-byte header —
magic `0x5654` (2 bytes), version (1), flag byte (1), `cols` (4), `rows` (4),
`viewportY` (4), `cursorX` (4), `cursorY` (4), reserved (4) — followed either
by full row records or, when the diff flag is set, a non-empty row count plus
`(rowIndex:uint16, rowRecord)` pairs. -/
theorem frame_layout_spec (s : Snapshot) (prev : Option Snapshot) :
    ((encodeSnapshot s prev).1.take 2 = u16le 0x5654)
    ∧ ((encodeSnapshot s prev).1.get? 2 = some 0x01)
    ∧ ((encodeSnapshot s prev).1.get? 3
        = some (if (encodeSnapshot s prev).2 then 0x01 else 0x00))
    ∧ (((encodeSnapshot s prev).1.drop 4).take 4 = u32le s.cols)
    ∧ (((encodeSnapshot s prev).1.drop 8).take 4 = u32le s.rows)
    ∧ (((encodeSnapshot s prev).1.drop 12).take 4 = i32le s.viewportY)
    ∧ (((encodeSnapshot s prev).1.drop 16).take 4 = i32le s.cursorX)
    ∧ (((encodeSnapshot s prev).1.drop 20).take 4 = i32le s.cursorY)
    ∧ (((encodeSnapshot s prev).1.drop 24).take 4 = u32le 0)
    ∧ ((encodeSnapshot s prev).2 = false →
        (encodeSnapshot s prev).1.drop 28 = s.cells.flatMap encodeRow)
    ∧ ((encodeSnapshot s prev).2 = true →
        ∃ pairs : List (Nat × List BufferCell), 0 < pairs.length
          ∧ (encodeSnapshot s prev).1.drop 28
              = u16le pairs.length ++ pairs.flatMap (fun p => u16le p.1 ++ encodeRow p.2)) := by
  obtain ⟨body, hframe, hfull, hdiff⟩ := encodeSnapshot_shape s prev
  rw [hframe]
  refine ⟨?_, ?_, ?_, ?_, ?_, ?_, ?_, ?_, ?_, ?_, ?_⟩
  · simp [frameHeader, u16le, u32le, i32le]
  · simp [frameHeader, u16le, u32le, i32le]
  · simp [frameHeader, u16le, u32le, i32le]
  · simp [frameHeader, u16le, u32le, i32le]
  · simp [frameHeader, u16le, u32le, i32le]
  · simp [frameHeader, u16le, u32le, i32le]
  · simp [frameHeader, u16le, u32le, i32le]
  · simp [frameHeader, u16le, u32le, i32le]
  · simp [frameHeader, u16le, u32le, i32le]
  · intro h
    have hb := hfull h
    subst hb
    simp [frameHeader, u16le, u32le, i32le]
  · intro h
    rcases hdiff h with ⟨pairs, hp, hb⟩
    subst hb
    exact ⟨pairs, hp, by simp [frameHeader, u16le, u32le, i32le]⟩

/-- Snapshot with a single default-blank row, used for the C6 counterexample. -/
def snapC6 : Snapshot :=
  { cols := 1, rows := 1, viewportY := 0, cursorX := 0, cursorY := 0, cells := [[]] }

/-- C6 counterexample: the claim's fixed 16-byte header would make this
one-blank-row full frame 16 + 2 = 18 bytes; the encoder actually writes a
28-byte header, so the frame is 30 bytes long. -/
theorem frame_header_claim_counterexample :
    (encodeSnapshot snapC6 none).1.length = 30
    ∧ snapC6.cells.flatMap encodeRow = [0x00, 0x00]
    ∧ 16 + (snapC6.cells.flatMap encodeRow).length = 18
    ∧ (encodeSnapshot snapC6 none).1.length ≠ 16 + (snapC6.cells.flatMap encodeRow).length := by
  refine ⟨by decide, by decide, by decide, by decide⟩

/-- An ASCII cell carrying a non-zero `attributes` value: the case where the
pre-computed cell size misses the attributes byte written by `encodeRow`. -/
def attrCell : BufferCell :=
  { char := "a", width := 1, fg := none, bg := none, attributes := some 1 }

/-- A snapshot whose single row holds five attributed cells; the per-row
shortfall (5 bytes) exceeds the 4 bytes of slack the allocation has because
the header needs only 28 of the 32 bytes reserved for it. -/
def snapC10 : Snapshot :=
  { cols := 5, rows := 1, viewportY := 0, cursorX := 0, cursorY := 0
    cells := [[attrCell, attrCell, attrCell, attrCell, attrCell]] }

/-- `Buffer.allocUnsafe(dataSize)` size of the full-frame branch
(encode-snapshot.ts, lines 238-243): `32` plus the pre-computed row sizes. -/
def fullFrameAllocSize (s : Snapshot) : Nat :=
  32 + (s.cells.map calculateRowSize).sum

/-- Bytes the full-frame branch actually writes: the 28-byte header plus the
encoded rows. -/
def fullFrameBytesWritten (s : Snapshot) : Nat :=
  28 + (s.cells.flatMap encodeRow).length

/-- C10 (code bug): `calculateCellSize` returns 3 for an ASCII cell with
non-zero attributes, but `encodeRow` writes 4 bytes for it (marker, char,
flags, attributes) — the attributes byte is never counted.  For a row of five
such cells the full-frame buffer is allocated 50 bytes while 51 bytes are
written, so the final `writeUInt8` lands past the buffer's end and encoding
throws instead of producing the (length-51) frame of the list-level model. -/
theorem cellSize_mismatch_bug :
    calculateCellSize attrCell = 3
    ∧ (encodeCell attrCell).length = 4
    ∧ calculateRowSize [attrCell, attrCell, attrCell, attrCell, attrCell] = 18
    ∧ (encodeRow [attrCell, attrCell, attrCell, attrCell, attrCell]).length = 23
    ∧ fullFrameAllocSize snapC10 = 50
    ∧ (encodeSnapshot snapC10 none).1.length = 51
    ∧ fullFrameAllocSize snapC10 < fullFrameBytesWritten snapC10 := by
  refine ⟨by decide, by decide, by decide, by decide, by decide, by decide, by decide⟩

/-! The clear-boundary scan of `StreamWatcher.sendExistingContent` (the
analysis stream's data handler, lines 1010-1053, with
`processClearSequence`, lines 700-734) and the header rewrite sent to a
joining client (lines 1113-1123).  The scan consumes parsed lines; each
carries its on-disk byte length (line bytes plus the newline), since JSON
serialization of the line text is outside the model. -/

/-- An asciinema recording header (`AsciinemaHeader`). -/
structure AsciinemaHeader where
  version : Nat
  width : Nat
  height : Nat
deriving DecidableEq, Repr

/-- One parsed line of the recording, as classified by the analysis handler:
a header object, an event line, or a blank/invalid line that is skipped.
`byteLen` is the byte length of the line including its newline. -/
inductive ScanLine where
  | headerLine (h : AsciinemaHeader) (byteLen : Nat)
  | event (e : AsciinemaEvent) (byteLen : Nat)
  | invalid (byteLen : Nat)
deriving DecidableEq, Repr

/-- Modelled from the spec: the recognized clear/reset escape sequence of
`pruning-detector.ts` (`containsPruningSequence` / `findLastPrunePoint`),
which is not among the sources; the spec's concrete scenario uses `ESC[2J`,
taken here as the recognized sequence. -/
def pruneSequence : String := "\x1b[2J"

/-- Modelled from the spec: `findLastPrunePoint` returns the position of the
**last** occurrence of a recognized sequence in the event text, as the byte
length of the prefix preceding it (`none` when absent). -/
def findLastPrunePoint (data : String) : Option Nat :=
  (((List.range (data.data.length + 1)).filter fun i =>
      pruneSequence.data.isPrefixOf (data.data.drop i)).getLast?).map
    fun i => ((data.data.take i).map Char.utf8Size).sum

/-- Modelled from the spec: `calculatePruningPositionInFile` — the clear
offset is the line's starting file offset plus the byte length of the
in-line prefix preceding the sequence.  (The source passes the post-line
`fileOffset` and the raw line and recovers the same value.) -/
def calculatePruningPositionInFile (lineStartOffset prefixBytes : Nat) : Nat :=
  lineStartOffset + prefixBytes

/-- Scan state accumulated by the analysis stream handler. -/
structure ScanState where
  header : Option AsciinemaHeader
  events : List AsciinemaEvent
  eventOffsets : List Nat
  fileOffset : Nat
  lastClearIndex : Option Nat
  lastClearOffset : Nat
  currentResize : Option AsciinemaEvent
  lastResizeBeforeClear : Option AsciinemaEvent
deriving Repr

/-- One parsed line of the analysis scan: headers replace the stored header;
events record their line-start offset and are appended; resize events update
`currentResize`; an output event containing a prune point updates
`lastClearIndex` (the event's index), `lastClearOffset` (via
`calculatePruningPositionInFile`) and `lastResizeBeforeClear` (the most
recent resize seen so far), superseding any earlier clear. -/
def scanStep (st : ScanState) (line : ScanLine) : ScanState :=
  match line with
  | .headerLine h n =>
      { st with header := some h
                fileOffset := st.fileOffset + n }
  | .invalid n => { st with fileOffset := st.fileOffset + n }
  | .event e n =>
      let lineStart := st.fileOffset
      let st1 := { st with fileOffset := st.fileOffset + n }
      match e with
      | .exit c sid =>
          { st1 with events := st1.events ++ [.exit c sid]
                     eventOffsets := st1.eventOffsets ++ [lineStart] }
      | .resize t d =>
          { st1 with currentResize := some (.resize t d)
                     events := st1.events ++ [.resize t d]
                     eventOffsets := st1.eventOffsets ++ [lineStart] }
      | .input t d =>
          { st1 with events := st1.events ++ [.input t d]
                     eventOffsets := st1.eventOffsets ++ [lineStart] }
      | .output t d =>
          match findLastPrunePoint d with
          | some pos =>
              { st1 with lastClearIndex := some st1.events.length
                         lastClearOffset := calculatePruningPositionInFile lineStart pos
                         lastResizeBeforeClear := st1.currentResize
                         events := st1.events ++ [.output t d]
                         eventOffsets := st1.eventOffsets ++ [lineStart] }
          | none =>
              { st1 with events := st1.events ++ [.output t d]
                         eventOffsets := st1.eventOffsets ++ [lineStart] }

/-- The scan starts at the session's stored clear offset with empty state. -/
def initialScanState (startOffset : Nat) : ScanState :=
  { header := none
    events := []
    eventOffsets := []
    fileOffset := startOffset
    lastClearIndex := none
    lastClearOffset := startOffset
    currentResize := none
    lastResizeBeforeClear := none }

/-- The whole analysis scan over the parsed lines. -/
def runScan (startOffset : Nat) (lines : List ScanLine) : ScanState :=
  lines.foldl scanStep (initialScanState startOffset)

/-- `split('x')` on the character list (the separator is a single
character). -/
def splitOnChar (sep : Char) : List Char → List (List Char)
  | [] => [[]]
  | ch :: rest =>
      let r := splitOnChar sep rest
      if ch = sep then [] :: r
      else
        match r with
        | [] => [[ch]]
        | g :: gs => (ch :: g) :: gs

/-- A decimal digit's value. -/
def charDigit? (c : Char) : Option Nat :=
  if 48 ≤ c.toNat ∧ c.toNat ≤ 57 then some (c.toNat - 48) else none

def digitsValAux : List Char → Nat → Option Nat
  | [], acc => some acc
  | c :: rest, acc =>
      match charDigit? c with
      | some dv => digitsValAux rest (acc * 10 + dv)
      | none => none

/-- Decimal value of a non-empty all-digit character list. -/
def digitsVal (cs : List Char) : Option Nat :=
  match cs with
  | [] => none
  | _ => digitsValAux cs 0

/-- `parseInt` of the `'WxH'` resize payload halves (malformed parts give 0;
the source would produce `NaN` there, which never happens for resize
events). -/
def parseDims (d : String) : Nat × Nat :=
  let parts := splitOnChar 'x' d.data
  (((parts.get? 0).bind digitsVal).getD 0, ((parts.get? 1).bind digitsVal).getD 0)

/-- The header sent to a joining client (lines 1113-1123): when a clear was
found and a resize preceded it, the header's width/height are rewritten from
that resize's dimensions. -/
def headerToSend (st : ScanState) : Option AsciinemaHeader :=
  match st.header with
  | none => none
  | some h =>
      match st.lastClearIndex, st.lastResizeBeforeClear with
      | some _, some (.resize _ dim) =>
          some { h with width := (parseDims dim).1
                        height := (parseDims dim).2 }
      | _, _ => some h

/-- A line whose processing would record a clear: an output event whose text
contains a recognized prune sequence. -/
def isPruningLine : ScanLine → Bool
  | .event (.output _ d) _ => (findLastPrunePoint d).isSome
  | _ => false

/-- Specification-side description of `currentResize`: the last resize event
among the lines, if any. -/
def lastResizeSpecL : List ScanLine → Option AsciinemaEvent
  | [] => none
  | l :: rest =>
      match lastResizeSpecL rest with
      | some r => some r
      | none =>
          match l with
          | .event (.resize t d) _ => some (.resize t d)
          | _ => none

theorem scanStep_preserves_clear (st : ScanState) (line : ScanLine)
    (h : isPruningLine line = false) :
    (scanStep st line).lastClearIndex = st.lastClearIndex
    ∧ (scanStep st line).lastClearOffset = st.lastClearOffset
    ∧ (scanStep st line).lastResizeBeforeClear = st.lastResizeBeforeClear := by
  match line with
  | .headerLine hh n => exact ⟨rfl, rfl, rfl⟩
  | .invalid n => exact ⟨rfl, rfl, rfl⟩
  | .event e n =>
      match e with
      | .exit c sid => exact ⟨rfl, rfl, rfl⟩
      | .resize t d => exact ⟨rfl, rfl, rfl⟩
      | .input t d => exact ⟨rfl, rfl, rfl⟩
      | .output t d =>
          simp only [isPruningLine, Option.isSome] at h
          match hp : findLastPrunePoint d with
          | some pos => rw [hp] at h; cases h
          | none => simp [scanStep, hp]

theorem foldl_preserves_clear (post : List ScanLine) :
    ∀ st : ScanState, (∀ l ∈ post, isPruningLine l = false) →
      (post.foldl scanStep st).lastClearIndex = st.lastClearIndex
      ∧ (post.foldl scanStep st).lastClearOffset = st.lastClearOffset
      ∧ (post.foldl scanStep st).lastResizeBeforeClear = st.lastResizeBeforeClear := by
  induction post with
  | nil => exact fun st _ => ⟨rfl, rfl, rfl⟩
  | cons l rest ih =>
      intro st hall
      have hl : isPruningLine l = false := hall l (List.mem_cons_self l rest)
      have hrest : ∀ x ∈ rest, isPruningLine x = false :=
        fun x hx => hall x (List.mem_cons_of_mem l hx)
      obtain ⟨h1, h2, h3⟩ := scanStep_preserves_clear st l hl
      obtain ⟨g1, g2, g3⟩ := ih (scanStep st l) hrest
      exact ⟨g1.trans h1, g2.trans h2, g3.trans h3⟩

theorem scanStep_currentResize (st : ScanState) (line : ScanLine) :
    (scanStep st line).currentResize =
      match line with
      | .event (.resize t d) _ => some (.resize t d)
      | _ => st.currentResize := by
  match line with
  | .headerLine hh n => rfl
  | .invalid n => rfl
  | .event e n =>
      match e with
      | .exit c sid => rfl
      | .resize t d => rfl
      | .input t d => rfl
      | .output t d =>
          match hp : findLastPrunePoint d with
          | some pos => simp [scanStep, hp]
          | none => simp [scanStep, hp]

theorem foldl_currentResize (lines : List ScanLine) :
    ∀ st : ScanState, (lines.foldl scanStep st).currentResize =
      match lastResizeSpecL lines with
      | some r => some r
      | none => st.currentResize := by
  induction lines with
  | nil => intro st; simp [lastResizeSpecL]
  | cons l rest ih =>
      intro st
      rw [List.foldl_cons, ih (scanStep st l), scanStep_currentResize st l]
      match l with
      | .headerLine hh n =>
          simp only [lastResizeSpecL]
          cases lastResizeSpecL rest <;> rfl
      | .invalid n =>
          simp only [lastResizeSpecL]
          cases lastResizeSpecL rest <;> rfl
      | .event e n =>
          match e with
          | .exit c sid =>
              simp only [lastResizeSpecL]
              cases lastResizeSpecL rest <;> rfl
          | .resize t d =>
              simp only [lastResizeSpecL]
              cases lastResizeSpecL rest <;> rfl
          | .input t d =>
              simp only [lastResizeSpecL]
              cases lastResizeSpecL rest <;> rfl
          | .output t d =>
              simp only [lastResizeSpecL]
              cases lastResizeSpecL rest <;> rfl

theorem option_match_id (o : Option AsciinemaEvent) :
    (match o with
      | some r => some r
      | none => (none : Option AsciinemaEvent)) = o := by
  cases o <;> rfl

/-- C8: when the scan meets several clear-carrying output events, only the
last determines `lastClearIndex` and `lastClearOffset` — each later match
overwrites the earlier ones, so for any prefix `pre` (which may itself hold
clears), a clear line and a clear-free suffix `post`, the recorded clear is
the clear line's event index, its offset is the line's start offset plus the
in-line prefix byte length, `lastResizeBeforeClear` is the most recent resize
of `pre`, and when both a header and such a resize exist the header sent to
the joining client carries the resize's width and height. -/
theorem clear_scan_spec (startOffset : Nat) (pre post : List ScanLine)
    (t : Int) (d : String) (n pos : Nat)
    (hclear : findLastPrunePoint d = some pos)
    (hpost : ∀ l ∈ post, isPruningLine l = false) :
    (runScan startOffset (pre ++ .event (.output t d) n :: post)).lastClearIndex
        = some (runScan startOffset pre).events.length
    ∧ (runScan startOffset (pre ++ .event (.output t d) n :: post)).lastClearOffset
        = (runScan startOffset pre).fileOffset + pos
    ∧ (runScan startOffset (pre ++ .event (.output t d) n :: post)).lastResizeBeforeClear
        = lastResizeSpecL pre
    ∧ (∀ h rt dim,
        (runScan startOffset (pre ++ .event (.output t d) n :: post)).header = some h →
        (runScan startOffset (pre ++ .event (.output t d) n :: post)).lastResizeBeforeClear
          = some (.resize rt dim) →
        headerToSend (runScan startOffset (pre ++ .event (.output t d) n :: post))
          = some { h with width := (parseDims dim).1, height := (parseDims dim).2 }) := by
  have hsplit : runScan startOffset (pre ++ .event (.output t d) n :: post)
      = post.foldl scanStep (scanStep (runScan startOffset pre) (.event (.output t d) n)) := by
    rw [runScan, List.foldl_append, List.foldl_cons]
    rfl
  have hmid : (scanStep (runScan startOffset pre) (.event (.output t d) n)).lastClearIndex
        = some (runScan startOffset pre).events.length
      ∧ (scanStep (runScan startOffset pre) (.event (.output t d) n)).lastClearOffset
        = (runScan startOffset pre).fileOffset + pos
      ∧ (scanStep (runScan startOffset pre) (.event (.output t d) n)).lastResizeBeforeClear
        = (runScan startOffset pre).currentResize := by
    simp [scanStep, hclear, calculatePruningPositionInFile]
  obtain ⟨hp1, hp2, hp3⟩ :=
    foldl_preserves_clear post (scanStep (runScan startOffset pre) (.event (.output t d) n)) hpost
  have hresize : (runScan startOffset pre).currentResize = lastResizeSpecL pre := by
    rw [runScan, foldl_currentResize]
    simpa [initialScanState] using option_match_id (lastResizeSpecL pre)
  refine ⟨?_, ?_, ?_, ?_⟩
  · rw [hsplit, hp1, hmid.1]
  · rw [hsplit, hp2, hmid.2.1]
  · rw [hsplit, hp3, hmid.2.2, hresize]
  · intro h rt dim hheader hlast
    have hclearIdx : (runScan startOffset (pre ++ .event (.output t d) n :: post)).lastClearIndex
        = some (runScan startOffset pre).events.length := by
      rw [hsplit, hp1, hmid.1]
    rw [headerToSend, hheader, hclearIdx, hlast]

/-- Witness for `clear_scan_spec`: a log with a header, a resize to 100x40,
an output, an output carrying `ESC[2J` after a 2-byte prefix, and one plain
output after it.  The recorded clear is at event index 2 with offset
`start + lineBytes(pre) + 2`, and the header is rewritten to 100x40. -/
theorem clear_scan_spec_witness :
    (runScan 10 ([ScanLine.headerLine { version := 2, width := 80, height := 24 } 40,
        ScanLine.event (AsciinemaEvent.resize 1 "100x40") 20,
        ScanLine.event (AsciinemaEvent.output 2 "hello") 15]
      ++ ScanLine.event (AsciinemaEvent.output 3 ("ab" ++ pruneSequence ++ "cd")) 25
        :: [ScanLine.event (AsciinemaEvent.output 4 "later") 15])).lastClearIndex
      = some 2
    ∧ (runScan 10 ([ScanLine.headerLine { version := 2, width := 80, height := 24 } 40,
        ScanLine.event (AsciinemaEvent.resize 1 "100x40") 20,
        ScanLine.event (AsciinemaEvent.output 2 "hello") 15]
      ++ ScanLine.event (AsciinemaEvent.output 3 ("ab" ++ pruneSequence ++ "cd")) 25
        :: [ScanLine.event (AsciinemaEvent.output 4 "later") 15])).lastClearOffset
      = 87
    ∧ headerToSend (runScan 10 ([ScanLine.headerLine { version := 2, width := 80, height := 24 } 40,
        ScanLine.event (AsciinemaEvent.resize 1 "100x40") 20,
        ScanLine.event (AsciinemaEvent.output 2 "hello") 15]
      ++ ScanLine.event (AsciinemaEvent.output 3 ("ab" ++ pruneSequence ++ "cd")) 25
        :: [ScanLine.event (AsciinemaEvent.output 4 "later") 15]))
      = some { version := 2, width := 100, height := 40 } := by
  have hthm := clear_scan_spec 10
    [ScanLine.headerLine { version := 2, width := 80, height := 24 } 40,
     ScanLine.event (AsciinemaEvent.resize 1 "100x40") 20,
     ScanLine.event (AsciinemaEvent.output 2 "hello") 15]
    [ScanLine.event (AsciinemaEvent.output 4 "later") 15]
    3 ("ab" ++ pruneSequence ++ "cd") 25 2 (by decide) (by decide)
  refine ⟨hthm.1.trans (by decide), hthm.2.1.trans (by decide), ?_⟩
  exact (hthm.2.2.2 { version := 2, width := 80, height := 24 } 1 "100x40"
      (by decide) (hthm.2.2.1.trans (by decide))).trans (by decide)

end VibeTunnel
